import Mathlib

/-!
Shallow embedding of `src/lib/rest/SequentialBucket.ts` (Oceanic).

The TypeScript class `SequentialBucket` owns a work queue, quota fields
(`limit`, `remaining`, `reset`, `last`), a `processing` flag that is either a
boolean or a live timer handle, and a handle `latencyRef` to a shared latency
value. Its private drain loop `check(force)` releases at most one queued work
item per evaluation; the public `queue(func, priority)` enqueues and triggers a
check. A released item is invoked with a completion callback; the callback
either idles the bucket (empty queue) or forces a re-check.

The embedding below is pure state passing. Machine numbers (`Date.now()`
timestamps, latency, quota counters) are modelled as `Int`; all quantities
involved stay far below any floating-point precision limit, so `Int` is exact.
Three ghost fields instrument the state for the theorems without influencing
any decision the code makes:
  * `inFlight`: ids of items that have been invoked but whose completion
    callback has not fired yet;
  * `released`: the log of released item ids, in release order;
  * `nextId`: counter assigning a fresh id to each enqueued item
    (items are identified by their enqueue rank, since the closures
    themselves carry no relevant structure).
The JS value `this.processing : NodeJS.Timeout | boolean` becomes the
three-constructor type `Processing`; `timer d` records the live timeout and
the delay `d` it was scheduled with. The external network layer's direct
writes to the public quota fields and to the shared latency value are one of
the events of the trace semantics (`Ev.extWrite`).
-/

/-- The shared latency reference (`LatencyRef` from `types/request-handler`),
reduced to the single field the bucket reads. -/
structure LatencyRef where
  latency : Int
deriving DecidableEq

/-- The JS field `processing : NodeJS.Timeout | boolean`: `false`, `true`, or a
live timeout handle (recorded with the delay it was scheduled with). -/
inductive Processing where
  | boolFalse : Processing
  | boolTrue : Processing
  | timer (delay : Int) : Processing
deriving DecidableEq

/-- JS truthiness of the `processing` field: everything except `false`. -/
def Processing.truthy : Processing → Bool
  | .boolFalse => false
  | .boolTrue => true
  | .timer _ => true

/-- State of one `SequentialBucket` instance. Fields `_queue`, `last`,
`latencyRef`, `limit`, `processing`, `remaining`, `reset` mirror the class
fields; `inFlight`, `released`, `nextId` are ghost observation fields. -/
structure SequentialBucket where
  _queue : List Nat
  last : Int
  latencyRef : LatencyRef
  limit : Int
  processing : Processing
  remaining : Int
  reset : Int
  inFlight : List Nat
  released : List Nat
  nextId : Nat
deriving DecidableEq

/-- The constructor: `limit = remaining = limit`, `last = reset = 0`,
`_queue = []`, `processing = false`. Ghost fields start empty. -/
def SequentialBucket.init (limit : Int) (latencyRef : LatencyRef) : SequentialBucket where
  _queue := []
  last := 0
  latencyRef := latencyRef
  limit := limit
  processing := .boolFalse
  remaining := limit
  reset := 0
  inFlight := []
  released := []
  nextId := 0

/-- The window-refill step of `check` (lines 37-40 of the source):
`if (!this.reset || this.reset < now - offset) { this.reset = now - offset;
this.remaining = this.limit; }`. `!reset` on a JS number is truth of
`reset = 0`. -/
def SequentialBucket.refill (now : Int) (b : SequentialBucket) : SequentialBucket :=
  if b.reset = 0 ∨ b.reset < now - b.latencyRef.latency then
    { b with reset := now - b.latencyRef.latency, remaining := b.limit }
  else b

/-- Body of `check` past the two early returns (lines 37-59): refill, record
`last = now`, then either schedule the exhaustion timer or release the head
item. The `[]` branch of the match is unreachable when called from `check`
(the queue was tested non-empty and nothing dequeues in between); it performs
the writes that precede the `shift()` call and dequeues nothing. -/
def SequentialBucket.checkMain (now : Int) (b : SequentialBucket) : SequentialBucket :=
  let offset := b.latencyRef.latency
  let b1 := b.refill now
  let b2 := { b1 with last := now }
  if b2.remaining ≤ 0 then
    { b2 with processing := .timer (max 0 (b2.reset - now + offset) + 1) }
  else
    match b2._queue with
    | [] => { b2 with remaining := b2.remaining - 1, processing := .boolTrue }
    | f :: rest =>
        { b2 with
          remaining := b2.remaining - 1
          processing := .boolTrue
          _queue := rest
          inFlight := f :: b2.inFlight
          released := b2.released ++ [f] }

/-- The drain loop `check(force)` (lines 24-60). Empty queue: cancel any pending timer and
idle (`processing = false`). Already processing and not forced: return.
Otherwise run the main body. -/
def SequentialBucket.check (force : Bool) (now : Int) (b : SequentialBucket) : SequentialBucket :=
  if b._queue = [] then
    { b with processing := .boolFalse }
  else if b.processing.truthy && !force then
    b
  else
    b.checkMain now

/-- The completion callback a released item receives (lines 53-58): drop the
item from flight, then `if (this._queue.length === 0) this.processing = false;
else this.check(true)`. -/
def SequentialBucket.completeStep (now : Int) (b : SequentialBucket) : SequentialBucket :=
  let b1 := { b with inFlight := b.inFlight.tail }
  if b1._queue = [] then
    { b1 with processing := .boolFalse }
  else
    b1.check true now

/-- The public `queue(func, priority)` (lines 67-74): unshift or push, assign the ghost
id, then `check()` (not forced). -/
def SequentialBucket.queue (priority : Bool) (now : Int) (b : SequentialBucket) : SequentialBucket :=
  let b1 :=
    { b with
      _queue := if priority then b.nextId :: b._queue else b._queue ++ [b.nextId]
      nextId := b.nextId + 1 }
  b1.check false now

/-- Events of the closed system: an enqueue (with arbitrary current time), the
completion signal of the in-flight item, the scheduled timeout firing, and the
external network layer overwriting the public quota fields and the shared
latency value. -/
inductive Ev where
  | enq (priority : Bool) (now : Int) : Ev
  | complete (now : Int) : Ev
  | timerFire (now : Int) : Ev
  | extWrite (limit remaining reset latency : Int) : Ev
deriving DecidableEq

/-- One event. `complete` is enabled only when an item is in flight (the
caller contract: each released item signals completion exactly once);
`timerFire` only when a timeout is live (`processing` holds a handle). The
timer callback is `() => { this.processing = false; this.check(true); }`. -/
def applyEv (b : SequentialBucket) (e : Ev) : SequentialBucket :=
  match e with
  | .enq priority now => b.queue priority now
  | .complete now =>
      if b.inFlight = [] then b else b.completeStep now
  | .timerFire now =>
      match b.processing with
      | .timer _ => SequentialBucket.check true now { b with processing := .boolFalse }
      | _ => b
  | .extWrite l r rs lat =>
      { b with limit := l, remaining := r, reset := rs, latencyRef := ⟨lat⟩ }

/-- A run of the system: fold the events over a starting state. -/
def run (b : SequentialBucket) (evs : List Ev) : SequentialBucket :=
  evs.foldl applyEv b

/-- The bucket's item history: released log followed by the pending queue.
Releases move the boundary; enqueues insert at the end (normal) or at the
boundary (priority), so the list order of two given items never changes. -/
def SequentialBucket.hist (b : SequentialBucket) : List Nat :=
  b.released ++ b._queue

/-- Concrete state used by witnesses: one queued item, quota available,
window not yet elapsed at the times the witnesses use. -/
def bucketReady : SequentialBucket where
  _queue := [5]
  last := 0
  latencyRef := ⟨0⟩
  limit := 10
  processing := .boolFalse
  remaining := 3
  reset := 2000
  inFlight := []
  released := []
  nextId := 6

/-- Concrete state used by witnesses: one queued item, quota exhausted
(`remaining = 0`), window reset still in the future. -/
def bucketExhausted : SequentialBucket where
  _queue := [0]
  last := 0
  latencyRef := ⟨0⟩
  limit := 5
  processing := .boolFalse
  remaining := 0
  reset := 2000
  inFlight := []
  released := []
  nextId := 1

/-- Concrete state used by witnesses: an item is mid-release
(`processing = true`) and another waits in the queue. -/
def bucketBusy : SequentialBucket where
  _queue := [1]
  last := 0
  latencyRef := ⟨0⟩
  limit := 10
  processing := .boolTrue
  remaining := 9
  reset := 1000
  inFlight := [0]
  released := [0]
  nextId := 2

/-- The spec's 8.9 scenario at `now = 100000`: `remaining = 0`,
`reset = now + 1000`, shared latency `50`. -/
def bucketScenario : SequentialBucket where
  _queue := [0]
  last := 0
  latencyRef := ⟨50⟩
  limit := 5
  processing := .boolFalse
  remaining := 0
  reset := 101000
  inFlight := []
  released := []
  nextId := 1

/-! ### Field-preservation lemmas for the individual steps -/

@[simp]
theorem refill_queue (b : SequentialBucket) (now : Int) :
    (b.refill now)._queue = b._queue := by
  unfold SequentialBucket.refill; split <;> rfl

@[simp]
theorem refill_released (b : SequentialBucket) (now : Int) :
    (b.refill now).released = b.released := by
  unfold SequentialBucket.refill; split <;> rfl

@[simp]
theorem refill_inFlight (b : SequentialBucket) (now : Int) :
    (b.refill now).inFlight = b.inFlight := by
  unfold SequentialBucket.refill; split <;> rfl

@[simp]
theorem refill_nextId (b : SequentialBucket) (now : Int) :
    (b.refill now).nextId = b.nextId := by
  unfold SequentialBucket.refill; split <;> rfl

@[simp]
theorem refill_limit (b : SequentialBucket) (now : Int) :
    (b.refill now).limit = b.limit := by
  unfold SequentialBucket.refill; split <;> rfl

@[simp]
theorem refill_latencyRef (b : SequentialBucket) (now : Int) :
    (b.refill now).latencyRef = b.latencyRef := by
  unfold SequentialBucket.refill; split <;> rfl

@[simp]
theorem refill_processing (b : SequentialBucket) (now : Int) :
    (b.refill now).processing = b.processing := by
  unfold SequentialBucket.refill; split <;> rfl

theorem checkMain_hist (b : SequentialBucket) (now : Int) :
    (b.checkMain now).hist = b.hist := by
  unfold SequentialBucket.checkMain SequentialBucket.hist
  dsimp only
  split
  · simp
  · split
    · simp_all
    · rename_i heq
      simp_all [List.append_assoc]

theorem checkMain_nextId (b : SequentialBucket) (now : Int) :
    (b.checkMain now).nextId = b.nextId := by
  unfold SequentialBucket.checkMain
  dsimp only
  split
  · simp
  · split <;> simp_all

theorem checkMain_limit (b : SequentialBucket) (now : Int) :
    (b.checkMain now).limit = b.limit := by
  unfold SequentialBucket.checkMain
  dsimp only
  split
  · simp
  · split <;> simp_all

theorem checkMain_latencyRef (b : SequentialBucket) (now : Int) :
    (b.checkMain now).latencyRef = b.latencyRef := by
  unfold SequentialBucket.checkMain
  dsimp only
  split
  · simp
  · split <;> simp_all

theorem check_hist (b : SequentialBucket) (force : Bool) (now : Int) :
    (b.check force now).hist = b.hist := by
  unfold SequentialBucket.check
  split
  · rfl
  · split
    · rfl
    · exact checkMain_hist b now

theorem check_nextId (b : SequentialBucket) (force : Bool) (now : Int) :
    (b.check force now).nextId = b.nextId := by
  unfold SequentialBucket.check
  split
  · rfl
  · split
    · rfl
    · exact checkMain_nextId b now

theorem check_limit (b : SequentialBucket) (force : Bool) (now : Int) :
    (b.check force now).limit = b.limit := by
  unfold SequentialBucket.check
  split
  · rfl
  · split
    · rfl
    · exact checkMain_limit b now

theorem check_latencyRef (b : SequentialBucket) (force : Bool) (now : Int) :
    (b.check force now).latencyRef = b.latencyRef := by
  unfold SequentialBucket.check
  split
  · rfl
  · split
    · rfl
    · exact checkMain_latencyRef b now

theorem completeStep_hist (b : SequentialBucket) (now : Int) :
    (b.completeStep now).hist = b.hist := by
  unfold SequentialBucket.completeStep
  dsimp only
  split
  · rfl
  · rw [check_hist]; rfl

theorem completeStep_nextId (b : SequentialBucket) (now : Int) :
    (b.completeStep now).nextId = b.nextId := by
  unfold SequentialBucket.completeStep
  dsimp only
  split
  · rfl
  · rw [check_nextId]

theorem completeStep_limit (b : SequentialBucket) (now : Int) :
    (b.completeStep now).limit = b.limit := by
  unfold SequentialBucket.completeStep
  dsimp only
  split
  · rfl
  · rw [check_limit]

theorem completeStep_latencyRef (b : SequentialBucket) (now : Int) :
    (b.completeStep now).latencyRef = b.latencyRef := by
  unfold SequentialBucket.completeStep
  dsimp only
  split
  · rfl
  · rw [check_latencyRef]

theorem queue_hist_normal (b : SequentialBucket) (now : Int) :
    (b.queue false now).hist = b.hist ++ [b.nextId] := by
  unfold SequentialBucket.queue
  dsimp only
  rw [check_hist]
  simp [SequentialBucket.hist]

theorem queue_hist_priority (b : SequentialBucket) (now : Int) :
    (b.queue true now).hist = b.released ++ b.nextId :: b._queue := by
  unfold SequentialBucket.queue
  dsimp only
  rw [check_hist]
  simp [SequentialBucket.hist]

theorem queue_nextId (b : SequentialBucket) (priority : Bool) (now : Int) :
    (b.queue priority now).nextId = b.nextId + 1 := by
  unfold SequentialBucket.queue
  dsimp only
  rw [check_nextId]

theorem queue_limit (b : SequentialBucket) (priority : Bool) (now : Int) :
    (b.queue priority now).limit = b.limit := by
  unfold SequentialBucket.queue
  dsimp only
  rw [check_limit]

theorem queue_latencyRef (b : SequentialBucket) (priority : Bool) (now : Int) :
    (b.queue priority now).latencyRef = b.latencyRef := by
  unfold SequentialBucket.queue
  dsimp only
  rw [check_latencyRef]

/-! ### Effect of one event on the history and the id counter -/

theorem applyEv_hist_enq_normal (b : SequentialBucket) (now : Int) :
    (applyEv b (.enq false now)).hist = b.hist ++ [b.nextId] :=
  queue_hist_normal b now

theorem applyEv_hist_enq_priority (b : SequentialBucket) (now : Int) :
    (applyEv b (.enq true now)).hist = b.released ++ b.nextId :: b._queue :=
  queue_hist_priority b now

theorem applyEv_hist_complete (b : SequentialBucket) (now : Int) :
    (applyEv b (.complete now)).hist = b.hist := by
  simp only [applyEv]
  split
  · rfl
  · exact completeStep_hist b now

theorem applyEv_hist_timerFire (b : SequentialBucket) (now : Int) :
    (applyEv b (.timerFire now)).hist = b.hist := by
  simp only [applyEv]
  split
  · rw [check_hist]; rfl
  · rfl

theorem applyEv_hist_extWrite (b : SequentialBucket) (l r rs lat : Int) :
    (applyEv b (.extWrite l r rs lat)).hist = b.hist := rfl

theorem applyEv_nextId_le (b : SequentialBucket) (e : Ev) :
    b.nextId ≤ (applyEv b e).nextId := by
  cases e with
  | enq p now =>
      simp only [applyEv]
      rw [queue_nextId]
      exact Nat.le_succ _
  | complete now =>
      simp only [applyEv]
      split
      · exact Nat.le_refl _
      · rw [completeStep_nextId]
  | timerFire now =>
      simp only [applyEv]
      split
      · rw [check_nextId]
      · exact Nat.le_refl _
  | extWrite l r rs lat => exact Nat.le_refl _

/-! ### Generic list lemmas about order under boundary insertions -/

theorem sublist_append_cons_middle {α : Type} {l r q : List α} (a : α)
    (h : l.Sublist (r ++ q)) : l.Sublist (r ++ a :: q) := by
  obtain ⟨l₁, l₂, rfl, h₁, h₂⟩ := List.sublist_append_iff.mp h
  exact h₁.append (h₂.cons a)

theorem sublist_pair_of_mem_left {α : Type} {x y : α} {r q : List α}
    (hnd : (r ++ q).Nodup) (h : [x, y].Sublist (r ++ q)) (hy : y ∈ r) :
    [x, y].Sublist r := by
  obtain ⟨l₁, l₂, heq, h₁, h₂⟩ := List.sublist_append_iff.mp h
  have hynq : y ∉ q := fun hc => (List.nodup_append.mp hnd).2.2 hy hc
  rcases l₁ with _ | ⟨a, l₁x⟩
  · rw [List.nil_append] at heq
    subst heq
    exact absurd (h₂.subset (by simp)) hynq
  · rw [List.cons_append] at heq
    injection heq with hxa heq2
    subst hxa
    rcases l₁x with _ | ⟨c, l₁y⟩
    · rw [List.nil_append] at heq2
      subst heq2
      exact absurd (h₂.subset (by simp)) hynq
    · rw [List.cons_append] at heq2
      injection heq2 with hyc heq3
      subst hyc
      obtain ⟨h4, h5⟩ := List.append_eq_nil.mp heq3.symm
      subst h4
      exact h₁

theorem nodup_append_singleton {α : Type} {l : List α} {a : α}
    (hnd : l.Nodup) (ha : a ∉ l) : (l ++ [a]).Nodup := by
  rw [List.nodup_append]
  refine ⟨hnd, List.nodup_singleton a, ?_⟩
  intro x hx hxa
  rw [List.mem_singleton] at hxa
  subst hxa
  exact ha hx

/-! ### The single-flight invariant (claim C1) -/

/-- At most one item is in flight, and an in-flight item forces
`processing = true` (the boolean, not a timer handle). -/
def SingleFlight (b : SequentialBucket) : Prop :=
  b.inFlight.length ≤ 1 ∧ (b.inFlight ≠ [] → b.processing = .boolTrue)

theorem checkMain_singleFlight (b : SequentialBucket) (now : Int)
    (h : b.inFlight = []) : SingleFlight (b.checkMain now) := by
  unfold SequentialBucket.checkMain
  dsimp only
  split
  · exact ⟨by simp [h], by simp [h]⟩
  · split
    · exact ⟨by simp [h], by simp [h]⟩
    · refine ⟨by simp [h], fun _ => rfl⟩

theorem check_singleFlight (b : SequentialBucket) (force : Bool) (now : Int)
    (h : b.inFlight = []) : SingleFlight (b.check force now) := by
  unfold SequentialBucket.check
  split
  · exact ⟨by simp [h], by simp [h]⟩
  · split
    · exact ⟨by simp [h], by simp [h]⟩
    · exact checkMain_singleFlight b now h

/-- A non-forced check with a non-empty queue and a truthy `processing` flag
is a no-op (the second early return of `check`). -/
theorem check_noop_of_busy (b : SequentialBucket) (now : Int)
    (hq : b._queue ≠ []) (hp : b.processing.truthy = true) :
    b.check false now = b := by
  unfold SequentialBucket.check
  rw [if_neg hq, hp]
  simp

theorem queue_eq_check (b : SequentialBucket) (p : Bool) (now : Int) :
    b.queue p now = SequentialBucket.check false now
      { b with
        _queue := if p then b.nextId :: b._queue else b._queue ++ [b.nextId]
        nextId := b.nextId + 1 } := rfl

theorem applyEv_singleFlight (b : SequentialBucket) (e : Ev)
    (h : SingleFlight b) : SingleFlight (applyEv b e) := by
  obtain ⟨hlen, hproc⟩ := h
  cases e with
  | enq p now =>
      show SingleFlight (b.queue p now)
      rw [queue_eq_check]
      by_cases hf : b.inFlight = []
      · exact check_singleFlight _ false now hf
      · have hq : SequentialBucket._queue
            { b with
              _queue := if p then b.nextId :: b._queue else b._queue ++ [b.nextId]
              nextId := b.nextId + 1 } ≠ [] := by
          cases p <;> simp
        rw [check_noop_of_busy _ now hq (by show b.processing.truthy = true; rw [hproc hf]; rfl)]
        exact ⟨hlen, fun _ => hproc hf⟩
  | complete now =>
      simp only [applyEv]
      split
      · exact ⟨hlen, hproc⟩
      · rename_i hne
        unfold SequentialBucket.completeStep
        dsimp only
        have htail : b.inFlight.tail = [] := by
          rcases hl : b.inFlight with _ | ⟨x, xs⟩
          · rfl
          · rw [hl] at hlen
            simp at hlen
            simp [hlen]
        split
        · exact ⟨by simp [htail], by simp [htail]⟩
        · exact check_singleFlight _ true now htail
  | timerFire now =>
      simp only [applyEv]
      split
      · rename_i d hd
        have hf : b.inFlight = [] := by
          by_contra hc
          rw [hproc hc] at hd
          exact Processing.noConfusion hd
        exact check_singleFlight _ true now hf
      · exact ⟨hlen, hproc⟩
  | extWrite l r rs lat => exact ⟨hlen, hproc⟩

theorem run_singleFlight (b : SequentialBucket) (evs : List Ev)
    (h : SingleFlight b) : SingleFlight (run b evs) := by
  induction evs generalizing b with
  | nil => exact h
  | cons e evs ih => exact ih (applyEv b e) (applyEv_singleFlight b e h)

/-! ### Well-formed histories: ids below the counter, no duplicates -/

/-- Every id in the history is below the id counter, and the history has no
duplicates. -/
def HistOk (b : SequentialBucket) : Prop :=
  (∀ x ∈ b.hist, x < b.nextId) ∧ b.hist.Nodup

theorem applyEv_histOk (b : SequentialBucket) (e : Ev)
    (h : HistOk b) : HistOk (applyEv b e) := by
  obtain ⟨hlt, hnd⟩ := h
  cases e with
  | enq p now =>
      cases p with
      | false =>
          constructor
          · intro x hx
            rw [applyEv_hist_enq_normal] at hx
            rw [show (applyEv b (.enq false now)).nextId = b.nextId + 1 from queue_nextId b false now]
            rcases List.mem_append.mp hx with hx | hx
            · exact Nat.lt_succ_of_lt (hlt x hx)
            · rw [List.mem_singleton] at hx
              subst hx
              exact Nat.lt_succ_self _
          · rw [applyEv_hist_enq_normal]
            exact nodup_append_singleton hnd (fun hc => Nat.lt_irrefl _ (hlt _ hc))
      | true =>
          constructor
          · intro x hx
            rw [applyEv_hist_enq_priority] at hx
            rw [show (applyEv b (.enq true now)).nextId = b.nextId + 1 from queue_nextId b true now]
            rcases List.mem_append.mp hx with hx | hx
            · exact Nat.lt_succ_of_lt (hlt x (List.mem_append_left _ hx))
            · rcases List.mem_cons.mp hx with hx | hx
              · subst hx
                exact Nat.lt_succ_self _
              · exact Nat.lt_succ_of_lt (hlt x (List.mem_append_right _ hx))
          · rw [applyEv_hist_enq_priority, List.nodup_middle]
            rw [show b.released ++ b._queue = b.hist from rfl]
            exact List.nodup_cons.mpr ⟨fun hc => Nat.lt_irrefl _ (hlt _ hc), hnd⟩
  | complete now =>
      refine ⟨?_, by rw [applyEv_hist_complete]; exact hnd⟩
      intro x hx
      rw [applyEv_hist_complete] at hx
      have : (applyEv b (.complete now)).nextId = b.nextId := by
        simp only [applyEv]
        split
        · rfl
        · exact completeStep_nextId b now
      rw [this]
      exact hlt x hx
  | timerFire now =>
      refine ⟨?_, by rw [applyEv_hist_timerFire]; exact hnd⟩
      intro x hx
      rw [applyEv_hist_timerFire] at hx
      have : (applyEv b (.timerFire now)).nextId = b.nextId := by
        simp only [applyEv]
        split
        · exact check_nextId _ true now
        · rfl
      rw [this]
      exact hlt x hx
  | extWrite l r rs lat =>
      exact ⟨fun x hx => hlt x hx, hnd⟩

theorem run_histOk (b : SequentialBucket) (evs : List Ev)
    (h : HistOk b) : HistOk (run b evs) := by
  induction evs generalizing b with
  | nil => exact h
  | cons e evs ih => exact ih (applyEv b e) (applyEv_histOk b e h)

/-- Once in the history, always in the history. -/
theorem applyEv_hist_mem (b : SequentialBucket) (e : Ev) {x : Nat}
    (h : x ∈ b.hist) : x ∈ (applyEv b e).hist := by
  cases e with
  | enq p now =>
      cases p with
      | false =>
          rw [applyEv_hist_enq_normal]
          exact List.mem_append_left _ h
      | true =>
          rw [applyEv_hist_enq_priority]
          rcases List.mem_append.mp h with h | h
          · exact List.mem_append_left _ h
          · exact List.mem_append_right _ (List.mem_cons_of_mem _ h)
  | complete now => rw [applyEv_hist_complete]; exact h
  | timerFire now => rw [applyEv_hist_timerFire]; exact h
  | extWrite l r rs lat => exact h

theorem run_hist_mem (b : SequentialBucket) (evs : List Ev) {x : Nat}
    (h : x ∈ b.hist) : x ∈ (run b evs).hist := by
  induction evs generalizing b with
  | nil => exact h
  | cons e evs ih => exact ih (applyEv b e) (applyEv_hist_mem b e h)

/-- The relative order of two items already in the history is stable. -/
theorem applyEv_hist_sublist (b : SequentialBucket) (e : Ev) {l : List Nat}
    (h : l.Sublist b.hist) : l.Sublist (applyEv b e).hist := by
  cases e with
  | enq p now =>
      cases p with
      | false =>
          rw [applyEv_hist_enq_normal]
          exact h.trans (List.sublist_append_left _ _)
      | true =>
          rw [applyEv_hist_enq_priority]
          exact sublist_append_cons_middle _ h
  | complete now => rw [applyEv_hist_complete]; exact h
  | timerFire now => rw [applyEv_hist_timerFire]; exact h
  | extWrite l' r rs lat => exact h

theorem run_hist_sublist (b : SequentialBucket) (evs : List Ev) {l : List Nat}
    (h : l.Sublist b.hist) : l.Sublist (run b evs).hist := by
  induction evs generalizing b with
  | nil => exact h
  | cons e evs ih => exact ih (applyEv b e) (applyEv_hist_sublist b e h)

theorem run_nextId_le (b : SequentialBucket) (evs : List Ev) :
    b.nextId ≤ (run b evs).nextId := by
  induction evs generalizing b with
  | nil => exact Nat.le_refl _
  | cons e evs ih => exact Nat.le_trans (applyEv_nextId_le b e) (ih (applyEv b e))

/-- From an order in the history and membership of the later element in the
released prefix, extract the order in the released log itself. -/
theorem released_order_of_hist (b : SequentialBucket) {x y : Nat}
    (hok : HistOk b) (h : [x, y].Sublist b.hist) (hy : y ∈ b.released) :
    [x, y].Sublist b.released :=
  sublist_pair_of_mem_left hok.2 h hy

/-! ### Branch characterizations of one `check` evaluation -/

theorem check_noop_of_guard (b : SequentialBucket) (force : Bool) (now : Int)
    (hq : b._queue ≠ []) (hg : (b.processing.truthy && !force) = true) :
    b.check force now = b := by
  unfold SequentialBucket.check
  rw [if_neg hq, hg]
  simp

theorem check_eq_checkMain (b : SequentialBucket) (force : Bool) (now : Int)
    (hq : b._queue ≠ []) (hg : b.processing.truthy = false ∨ force = true) :
    b.check force now = b.checkMain now := by
  unfold SequentialBucket.check
  rw [if_neg hq]
  have hc : (b.processing.truthy && !force) = false := by
    rcases hg with hg | hg
    · rw [hg]; rfl
    · rw [hg]; simp
  rw [hc]
  simp

theorem checkMain_exhausted_fields (b : SequentialBucket) (now : Int)
    (hr : (b.refill now).remaining ≤ 0) :
    (b.checkMain now).released = b.released ∧
    (b.checkMain now)._queue = b._queue ∧
    (b.checkMain now).inFlight = b.inFlight ∧
    (b.checkMain now).remaining = (b.refill now).remaining ∧
    (b.checkMain now).processing =
      .timer (max 0 ((b.refill now).reset - now + b.latencyRef.latency) + 1) := by
  unfold SequentialBucket.checkMain
  dsimp only
  rw [if_pos hr]
  simp

theorem checkMain_release_fields (b : SequentialBucket) (now : Int) (f : Nat)
    (rest : List Nat) (hq : b._queue = f :: rest)
    (hr : 0 < (b.refill now).remaining) :
    (b.checkMain now).released = b.released ++ [f] ∧
    (b.checkMain now)._queue = rest ∧
    (b.checkMain now).inFlight = f :: b.inFlight ∧
    (b.checkMain now).processing = .boolTrue ∧
    (b.checkMain now).remaining = (b.refill now).remaining - 1 ∧
    (b.checkMain now).last = now := by
  unfold SequentialBucket.checkMain
  dsimp only
  rw [if_neg (by omega)]
  have hq2 : (b.refill now)._queue = f :: rest := by rw [refill_queue, hq]
  simp [hq2, hq]

/-! ### Claim theorems -/

/-- C1: for every sequence of enqueue calls, completion signals, timer firings
and external quota writes on a single bucket, at most one work item is in
flight (dequeued and invoked but not yet completed) at any time: the drain
loop never invokes a second item before the completion callback of the
current one fires. -/
theorem c1_at_most_one_in_flight (limit : Int) (lat : LatencyRef) (evs : List Ev) :
    ((run (SequentialBucket.init limit lat) evs).inFlight).length ≤ 1 :=
  (run_singleFlight _ evs
    ⟨by simp [SequentialBucket.init], fun h => absurd rfl h⟩).1

/-- C2: an evaluation of the drain loop reaches the releasing branch only
when, after the window-refill step, `remaining > 0`, and the release
decrements `remaining` by exactly one. The starting value of `remaining` is
arbitrary, including values at or below zero. -/
theorem c2_release_guarded_by_quota (b : SequentialBucket) (force : Bool) (now : Int)
    (h : (b.check force now).released ≠ b.released) :
    0 < (b.refill now).remaining ∧
      (b.check force now).remaining = (b.refill now).remaining - 1 := by
  by_cases hq : b._queue = []
  · exfalso
    apply h
    unfold SequentialBucket.check
    rw [if_pos hq]
  · by_cases hg : (b.processing.truthy && !force) = true
    · exact absurd (by rw [check_noop_of_guard b force now hq hg]) h
    · have hg2 : b.processing.truthy = false ∨ force = true := by
        cases hf : force with
        | true => exact Or.inr rfl
        | false =>
            rw [hf] at hg
            simp at hg
            exact Or.inl hg
      rw [check_eq_checkMain b force now hq hg2] at h ⊢
      by_cases hr : (b.refill now).remaining ≤ 0
      · exact absurd (checkMain_exhausted_fields b now hr).1 h
      · have hr2 : 0 < (b.refill now).remaining := by omega
        rcases hq2 : b._queue with _ | ⟨f, rest⟩
        · exact absurd hq2 hq
        · exact ⟨hr2, (checkMain_release_fields b now f rest hq2 hr2).2.2.2.2.1⟩

/-- Witness for C2: in `bucketReady` at `now = 1000` a release happens
(`released` grows), the post-refill quota is `3 > 0`, and the release leaves
`remaining = 2`. -/
theorem c2_release_guarded_by_quota_witness :
    0 < (bucketReady.refill 1000).remaining ∧
      (bucketReady.check false 1000).remaining = (bucketReady.refill 1000).remaining - 1 :=
  c2_release_guarded_by_quota bucketReady false 1000 (by decide)

/-- C3: whenever an evaluation reaches the quota check (non-empty queue, and
not stopped by the busy guard), it runs the main body, whose window-refill
step sets `reset = now - offset` and `remaining = limit` exactly when `reset`
is zero or `reset < now - offset`, and leaves both fields unchanged
otherwise. -/
theorem c3_window_refill (b : SequentialBucket) (force : Bool) (now : Int)
    (hq : b._queue ≠ []) (hg : b.processing.truthy = false ∨ force = true) :
    b.check force now = b.checkMain now ∧
    ((b.reset = 0 ∨ b.reset < now - b.latencyRef.latency) →
      (b.refill now).reset = now - b.latencyRef.latency ∧
        (b.refill now).remaining = b.limit) ∧
    (¬(b.reset = 0 ∨ b.reset < now - b.latencyRef.latency) →
      (b.refill now).reset = b.reset ∧ (b.refill now).remaining = b.remaining) := by
  refine ⟨check_eq_checkMain b force now hq hg, fun hc => ?_, fun hc => ?_⟩
  · unfold SequentialBucket.refill
    rw [if_pos hc]
    exact ⟨rfl, rfl⟩
  · unfold SequentialBucket.refill
    rw [if_neg hc]
    exact ⟨rfl, rfl⟩

/-- Witness for C3, both refill branches. `bucketReady` at `now = 1000`: the
window (`reset = 2000`) has not elapsed, so `reset` and `remaining` are
unchanged by the refill step. `bucketExhausted` at `now = 5000`: the window
has elapsed, so `reset` becomes `5000 - 0` and `remaining` becomes `limit`.
In both cases the evaluation runs the main body. -/
theorem c3_window_refill_witness :
    (bucketReady.check false 1000 = bucketReady.checkMain 1000 ∧
      (bucketReady.refill 1000).reset = bucketReady.reset ∧
      (bucketReady.refill 1000).remaining = bucketReady.remaining) ∧
    (bucketExhausted.check false 5000 = bucketExhausted.checkMain 5000 ∧
      (bucketExhausted.refill 5000).reset =
        5000 - bucketExhausted.latencyRef.latency ∧
      (bucketExhausted.refill 5000).remaining = bucketExhausted.limit) :=
  ⟨⟨(c3_window_refill bucketReady false 1000 (by decide) (Or.inl (by decide))).1,
    ((c3_window_refill bucketReady false 1000 (by decide)
      (Or.inl (by decide))).2.2 (by decide)).1,
    ((c3_window_refill bucketReady false 1000 (by decide)
      (Or.inl (by decide))).2.2 (by decide)).2⟩,
   ⟨(c3_window_refill bucketExhausted false 5000 (by decide)
      (Or.inl (by decide))).1,
    ((c3_window_refill bucketExhausted false 5000 (by decide)
      (Or.inl (by decide))).2.1 (by decide)).1,
    ((c3_window_refill bucketExhausted false 5000 (by decide)
      (Or.inl (by decide))).2.1 (by decide)).2⟩⟩

/-- C4: an evaluation with a non-empty queue that passes the busy guard and
finds `remaining <= 0` after the refill step releases no item, leaves the
queue untouched, transitions to the waiting state by scheduling one one-shot
wake-up of delay `max(0, reset - now + offset) + 1` milliseconds; firing the
wake-up clears the wait state and re-runs the full evaluation from the top in
forced mode. -/
theorem c4_exhaustion_path (b : SequentialBucket) (force : Bool) (now now₂ : Int)
    (hq : b._queue ≠ []) (hg : b.processing.truthy = false ∨ force = true)
    (hr : (b.refill now).remaining ≤ 0) :
    (b.check force now).released = b.released ∧
    (b.check force now)._queue = b._queue ∧
    (b.check force now).inFlight = b.inFlight ∧
    (b.check force now).processing =
      .timer (max 0 ((b.refill now).reset - now + b.latencyRef.latency) + 1) ∧
    applyEv (b.check force now) (.timerFire now₂) =
      SequentialBucket.check true now₂
        { b.check force now with processing := .boolFalse } := by
  rw [check_eq_checkMain b force now hq hg]
  obtain ⟨h1, h2, h3, _, h5⟩ := checkMain_exhausted_fields b now hr
  refine ⟨h1, h2, h3, h5, ?_⟩
  simp only [applyEv, h5]

/-- Witness for C4: `bucketExhausted` at `now = 1000`: no release, queue kept,
a wake-up scheduled with delay `max(0, 2000 - 1000 + 0) + 1 = 1001`, and at
`now = 2005` the firing wake-up clears the wait state and re-runs the forced
evaluation. -/
theorem c4_exhaustion_path_witness :
    (bucketExhausted.check false 1000).released = bucketExhausted.released ∧
    (bucketExhausted.check false 1000)._queue = bucketExhausted._queue ∧
    (bucketExhausted.check false 1000).inFlight = bucketExhausted.inFlight ∧
    (bucketExhausted.check false 1000).processing =
      .timer (max 0 ((bucketExhausted.refill 1000).reset - 1000 +
        bucketExhausted.latencyRef.latency) + 1) ∧
    applyEv (bucketExhausted.check false 1000) (.timerFire 2005) =
      SequentialBucket.check true 2005
        { bucketExhausted.check false 1000 with processing := .boolFalse } :=
  c4_exhaustion_path bucketExhausted false 1000 2005 (by decide)
    (Or.inl (by decide)) (by decide)

/-- C5 counterexample: in the spec scenario (`remaining = 0`,
`reset = now + 1000`, latency `50`, at `now = 100000`) the evaluation
schedules the wake-up with delay `1051` milliseconds — `reset - now + offset
+ 1`, the latency *added* — so it fires at about `now + 1050`, not at
approximately `now + 950` (not even within `[900, 1000]`). -/
theorem c5_scenario_counterexample :
    (bucketScenario.check false 100000).processing = .timer 1051 ∧
    (bucketScenario.check false 100000).processing ≠ .timer 950 ∧
    ¬(900 ≤ (1051 : Int) ∧ (1051 : Int) ≤ 1000) := by
  decide

/-- C5 amended: in the scenario `remaining = 0`, `reset = now + 1000`,
`offset = 50` at `now = 100000`, the scheduled wake-up fires after `1051`
milliseconds (`max(0, reset - now + offset) + 1`), i.e. at approximately
`now + 1050`; when it fires, the refill step restores `remaining = limit` and
the held item is released (leaving `remaining = limit - 1`). -/
theorem c5_scenario_amended :
    (bucketScenario.check false 100000).processing = .timer 1051 ∧
    (SequentialBucket.refill 101051
      { bucketScenario.check false 100000 with processing := .boolFalse }).remaining =
      bucketScenario.limit ∧
    (applyEv (bucketScenario.check false 100000) (.timerFire 101051)).released = [0] ∧
    (applyEv (bucketScenario.check false 100000) (.timerFire 101051)).inFlight = [0] ∧
    (applyEv (bucketScenario.check false 100000) (.timerFire 101051)).remaining =
      bucketScenario.limit - 1 := by
  decide

theorem run_cons (b : SequentialBucket) (e : Ev) (evs : List Ev) :
    run b (e :: evs) = run (applyEv b e) evs := rfl

theorem histOk_init (limit : Int) (lat : LatencyRef) :
    HistOk (SequentialBucket.init limit lat) :=
  ⟨fun x hx => absurd hx (List.not_mem_nil x), List.nodup_nil⟩

theorem pair_sublist_after_enq_normal (b : SequentialBucket) (now : Int)
    {a : Nat} (ha : a ∈ b.hist) :
    [a, b.nextId].Sublist (applyEv b (.enq false now)).hist := by
  rw [applyEv_hist_enq_normal]
  exact (List.singleton_sublist.mpr ha).append (List.Sublist.refl [b.nextId])

theorem pair_sublist_after_enq_priority (b : SequentialBucket) (now : Int)
    {n : Nat} (hn : n ∈ b._queue) :
    [b.nextId, n].Sublist (applyEv b (.enq true now)).hist := by
  rw [applyEv_hist_enq_priority]
  exact ((List.singleton_sublist.mpr hn).cons₂ b.nextId).trans
    (List.sublist_append_right _ _)

/-- C6: (a) two normal items are released in enqueue order; (b) a priority
item enqueued while an item `n` is queued is released before `n`; (c) a
priority item enqueued while an earlier priority item is still undrained is
released before it (priority items released in reverse enqueue order).
`Sublist` on the `released` log expresses "released earlier". -/
theorem c6_release_order :
    (∀ (limit lat : Int) (evs₁ evs₂ evs₃ : List Ev) (now₁ now₂ : Int)
       (s₁ s₂ s₃ : SequentialBucket) (a b : Nat),
       s₁ = run (SequentialBucket.init limit ⟨lat⟩) evs₁ →
       a = s₁.nextId →
       s₂ = run s₁ (Ev.enq false now₁ :: evs₂) →
       b = s₂.nextId →
       s₃ = run s₂ (Ev.enq false now₂ :: evs₃) →
       b ∈ s₃.released →
       [a, b].Sublist s₃.released) ∧
    (∀ (limit lat : Int) (evs₁ evs₂ : List Ev) (now : Int)
       (s₁ s₂ : SequentialBucket) (p n : Nat),
       s₁ = run (SequentialBucket.init limit ⟨lat⟩) evs₁ →
       p = s₁.nextId →
       n ∈ s₁._queue →
       s₂ = run s₁ (Ev.enq true now :: evs₂) →
       n ∈ s₂.released →
       [p, n].Sublist s₂.released) ∧
    (∀ (limit lat : Int) (evs₁ evs₂ evs₃ : List Ev) (now₁ now₂ : Int)
       (s₁ s₂ s₃ : SequentialBucket) (p₁ p₂ : Nat),
       s₁ = run (SequentialBucket.init limit ⟨lat⟩) evs₁ →
       p₁ = s₁.nextId →
       s₂ = run s₁ (Ev.enq true now₁ :: evs₂) →
       p₂ = s₂.nextId →
       p₁ ∉ s₂.released →
       s₃ = run s₂ (Ev.enq true now₂ :: evs₃) →
       p₁ ∈ s₃.released →
       [p₂, p₁].Sublist s₃.released) := by
  refine ⟨?_, ?_, ?_⟩
  · intro limit lat evs₁ evs₂ evs₃ now₁ now₂ s₁ s₂ s₃ a b hs₁ ha hs₂ hb hs₃ hrel
    have hok : HistOk s₃ := by
      rw [hs₃, hs₂, hs₁]
      exact run_histOk _ _ (run_histOk _ _ (run_histOk _ _ (histOk_init limit ⟨lat⟩)))
    have h1 : a ∈ (applyEv s₁ (Ev.enq false now₁)).hist := by
      rw [applyEv_hist_enq_normal, ha]
      exact List.mem_append_right _ (List.mem_singleton_self _)
    have h2 : a ∈ s₂.hist := by
      rw [hs₂, run_cons]
      exact run_hist_mem _ evs₂ h1
    have h3 : [a, b].Sublist (applyEv s₂ (Ev.enq false now₂)).hist := by
      rw [hb]
      exact pair_sublist_after_enq_normal s₂ now₂ h2
    have h4 : [a, b].Sublist s₃.hist := by
      rw [hs₃, run_cons]
      exact run_hist_sublist _ evs₃ h3
    exact released_order_of_hist s₃ hok h4 hrel
  · intro limit lat evs₁ evs₂ now s₁ s₂ p n hs₁ hp hn hs₂ hrel
    have hok : HistOk s₂ := by
      rw [hs₂, hs₁]
      exact run_histOk _ _ (run_histOk _ _ (histOk_init limit ⟨lat⟩))
    have h1 : [p, n].Sublist (applyEv s₁ (Ev.enq true now)).hist := by
      rw [hp]
      exact pair_sublist_after_enq_priority s₁ now hn
    have h2 : [p, n].Sublist s₂.hist := by
      rw [hs₂, run_cons]
      exact run_hist_sublist _ evs₂ h1
    exact released_order_of_hist s₂ hok h2 hrel
  · intro limit lat evs₁ evs₂ evs₃ now₁ now₂ s₁ s₂ s₃ p₁ p₂ hs₁ hp₁ hs₂ hp₂ hnrel hs₃ hrel
    have hok : HistOk s₃ := by
      rw [hs₃, hs₂, hs₁]
      exact run_histOk _ _ (run_histOk _ _ (run_histOk _ _ (histOk_init limit ⟨lat⟩)))
    have h1 : p₁ ∈ (applyEv s₁ (Ev.enq true now₁)).hist := by
      rw [applyEv_hist_enq_priority, hp₁]
      exact List.mem_append_right _ (List.mem_cons_self _ _)
    have h2 : p₁ ∈ s₂.hist := by
      rw [hs₂, run_cons]
      exact run_hist_mem _ evs₂ h1
    have h3 : p₁ ∈ s₂._queue := by
      unfold SequentialBucket.hist at h2
      rcases List.mem_append.mp h2 with h | h
      · exact absurd h hnrel
      · exact h
    have h4 : [p₂, p₁].Sublist (applyEv s₂ (Ev.enq true now₂)).hist := by
      rw [hp₂]
      exact pair_sublist_after_enq_priority s₂ now₂ h3
    have h5 : [p₂, p₁].Sublist s₃.hist := by
      rw [hs₃, run_cons]
      exact run_hist_sublist _ evs₃ h4
    exact released_order_of_hist s₃ hok h5 hrel

/-- Witness for C6. Part (a): normal items `0` then `1`, two completions
drain both; released log `[0, 1]`. Part (b): normals `0`, `1` queued (item
`0` mid-release), priority item `2` enqueued, then drained: released log
`[0, 2, 1]`, so `2` precedes `1`. Part (c): priority `1` enqueued (while `0`
is mid-release), then priority `2`, then drained: released `[0, 2, 1]`, so
`2` precedes `1`. -/
theorem c6_release_order_witness :
    [0, 1].Sublist (run (run (run (SequentialBucket.init 10 ⟨0⟩) [])
      (Ev.enq false 1 :: [])) (Ev.enq false 2 ::
        [Ev.complete 3, Ev.complete 4])).released ∧
    [2, 1].Sublist (run (run (SequentialBucket.init 10 ⟨0⟩)
      [Ev.enq false 1, Ev.enq false 1]) (Ev.enq true 2 ::
        [Ev.complete 3, Ev.complete 4, Ev.complete 5])).released ∧
    [2, 1].Sublist (run (run (run (SequentialBucket.init 10 ⟨0⟩)
      [Ev.enq false 1]) (Ev.enq true 2 :: [])) (Ev.enq true 3 ::
        [Ev.complete 4, Ev.complete 5, Ev.complete 6])).released := by
  refine ⟨?_, ?_, ?_⟩
  · exact c6_release_order.1 10 0 [] [] [Ev.complete 3, Ev.complete 4] 1 2
      _ _ _ 0 1 rfl (by decide) rfl (by decide) rfl (by decide)
  · exact c6_release_order.2.1 10 0 [Ev.enq false 1, Ev.enq false 1]
      [Ev.complete 3, Ev.complete 4, Ev.complete 5] 2 _ _ 2 1
      rfl (by decide) (by decide) rfl (by decide)
  · exact c6_release_order.2.2 10 0 [Ev.enq false 1] []
      [Ev.complete 4, Ev.complete 5, Ev.complete 6] 2 3 _ _ _ 1 2
      rfl (by decide) rfl (by decide) (by decide) rfl (by decide)

/-- C7: if at evaluation time the queue has head `f`, no release is pending
(`processing` falsy) and the post-refill quota is positive, the non-forced
check dequeues and invokes `f` within that same evaluation — it ends with
`processing = true` and no timer interposed. -/
theorem c7_synchronous_release (b : SequentialBucket) (now : Int) (f : Nat)
    (rest : List Nat) (hq : b._queue = f :: rest)
    (hp : b.processing.truthy = false)
    (hr : 0 < (b.refill now).remaining) :
    (b.check false now).released = b.released ++ [f] ∧
    (b.check false now)._queue = rest ∧
    (b.check false now).inFlight = f :: b.inFlight ∧
    (b.check false now).processing = .boolTrue := by
  have hq2 : b._queue ≠ [] := by rw [hq]; exact List.cons_ne_nil f rest
  rw [check_eq_checkMain b false now hq2 (Or.inl hp)]
  obtain ⟨h1, h2, h3, h4, _, _⟩ := checkMain_release_fields b now f rest hq hr
  exact ⟨h1, h2, h3, h4⟩

/-- Witness for C7: `bucketReady` at `now = 1000` releases its single queued
item `5` synchronously. -/
theorem c7_synchronous_release_witness :
    (bucketReady.check false 1000).released = bucketReady.released ++ [5] ∧
    (bucketReady.check false 1000)._queue = [] ∧
    (bucketReady.check false 1000).inFlight = 5 :: bucketReady.inFlight ∧
    (bucketReady.check false 1000).processing = .boolTrue :=
  c7_synchronous_release bucketReady 1000 5 [] (by decide) (by decide) (by decide)

/-- C8: a non-forced evaluation with a non-empty queue and `processing`
truthy (release in progress or wake-up scheduled) returns the state entirely
unchanged, and iterating such evaluations any number of times still changes
nothing — no additional release. -/
theorem c8_busy_check_is_noop (b : SequentialBucket) (now : Int)
    (hq : b._queue ≠ []) (hp : b.processing.truthy = true) :
    b.check false now = b ∧
    ∀ n : Nat, (SequentialBucket.check false now)^[n] b = b := by
  have h := check_noop_of_busy b now hq hp
  refine ⟨h, ?_⟩
  intro n
  induction n with
  | zero => rfl
  | succ k ih => rw [Function.iterate_succ_apply, h, ih]

/-- Witness for C8: `bucketBusy` (mid-release, one queued item) is unchanged
by a non-forced check, even iterated three times. -/
theorem c8_busy_check_is_noop_witness :
    bucketBusy.check false 500 = bucketBusy ∧
      (SequentialBucket.check false 500)^[3] bucketBusy = bucketBusy :=
  ⟨(c8_busy_check_is_noop bucketBusy 500 (by decide) (by decide)).1,
   (c8_busy_check_is_noop bucketBusy 500 (by decide) (by decide)).2 3⟩

/-- C9: for every positive `limit`, a freshly constructed bucket has
`remaining = limit`, `reset = 0` and `last = 0` (window unknown, so the first
evaluation triggers the refill heuristic), an empty queue, and is idle:
`processing = false` (no release pending, no wake-up scheduled) and nothing
in flight. -/
theorem c9_initial_state (limit : Int) (lat : LatencyRef) (h : 0 < limit) :
    (SequentialBucket.init limit lat).limit = limit ∧
    (SequentialBucket.init limit lat).remaining = limit ∧
    (SequentialBucket.init limit lat).reset = 0 ∧
    (SequentialBucket.init limit lat).last = 0 ∧
    (SequentialBucket.init limit lat)._queue = [] ∧
    (SequentialBucket.init limit lat).processing = .boolFalse ∧
    (SequentialBucket.init limit lat).inFlight = [] :=
  ⟨rfl, rfl, rfl, rfl, rfl, rfl, rfl⟩

/-- Witness for C9 at `limit = 5`, latency `25`. -/
theorem c9_initial_state_witness :
    (SequentialBucket.init 5 ⟨25⟩).limit = 5 ∧
    (SequentialBucket.init 5 ⟨25⟩).remaining = 5 ∧
    (SequentialBucket.init 5 ⟨25⟩).reset = 0 ∧
    (SequentialBucket.init 5 ⟨25⟩).last = 0 ∧
    (SequentialBucket.init 5 ⟨25⟩)._queue = [] ∧
    (SequentialBucket.init 5 ⟨25⟩).processing = .boolFalse ∧
    (SequentialBucket.init 5 ⟨25⟩).inFlight = [] :=
  c9_initial_state 5 ⟨25⟩ (by decide)

/-- C10: no bucket operation writes `limit` or the shared latency value: the
enqueue operation, the drain-loop evaluation, the completion callback, the
timer callback, and the completion event all preserve both. -/
theorem c10_frame_limit_latency (b : SequentialBucket) (priority force : Bool)
    (now : Int) :
    ((b.queue priority now).limit = b.limit ∧
      (b.queue priority now).latencyRef = b.latencyRef) ∧
    ((b.check force now).limit = b.limit ∧
      (b.check force now).latencyRef = b.latencyRef) ∧
    ((b.completeStep now).limit = b.limit ∧
      (b.completeStep now).latencyRef = b.latencyRef) ∧
    ((applyEv b (.timerFire now)).limit = b.limit ∧
      (applyEv b (.timerFire now)).latencyRef = b.latencyRef) ∧
    ((applyEv b (.complete now)).limit = b.limit ∧
      (applyEv b (.complete now)).latencyRef = b.latencyRef) := by
  have ht : (applyEv b (.timerFire now)).limit = b.limit ∧
      (applyEv b (.timerFire now)).latencyRef = b.latencyRef := by
    simp only [applyEv]
    split
    · exact ⟨check_limit _ true now, check_latencyRef _ true now⟩
    · exact ⟨rfl, rfl⟩
  have hc : (applyEv b (.complete now)).limit = b.limit ∧
      (applyEv b (.complete now)).latencyRef = b.latencyRef := by
    simp only [applyEv]
    split
    · exact ⟨rfl, rfl⟩
    · exact ⟨completeStep_limit b now, completeStep_latencyRef b now⟩
  exact ⟨⟨queue_limit b priority now, queue_latencyRef b priority now⟩,
    ⟨check_limit b force now, check_latencyRef b force now⟩,
    ⟨completeStep_limit b now, completeStep_latencyRef b now⟩, ht, hc⟩
